import Mathlib

/-!
# Verification of the simulated addressing and transport layer

Shallow embedding of the name-resolution registry (`src/dns.rs`), the UDP
endpoint operations (`src/net/udp.rs`) and the socket-pair identity
(`src/net/mod.rs`) of the simulated-network crate, together with proofs of
the specification claims about them.

Conventions used throughout:
* Rust panics, assertion failures and `.expect(..)` failures are modelled by `Option`
  results (`none` = the operation aborts the calling context).
* Machine integers are modelled as `Nat` with explicit `% 2 ^ w` where
  overflow matters (the registry counter is a `u16`, so its increment wraps
  at 65536).
* The `IndexMap` used by the registry preserves insertion order and appends
  new entries at the end; it is modelled as a `List (String × IpAddr)` in
  insertion order.
* The string parsers (`IpAddr`/`SocketAddr`/`u16` `FromStr`) are part of the
  program's behaviour (Rust std); they are modelled extensionally below,
  operating on the character list of the string.
-/

/-- An IP address: an IPv4 quad of octets, or an IPv6 address given by its
eight 16-bit groups. -/
inductive IpAddr where
  | v4 (a b c d : Nat)
  | v6 (groups : List Nat)
deriving DecidableEq, Repr

/-- A socket address: IP address plus 16-bit port. -/
structure SockAddr where
  ip : IpAddr
  port : Nat
deriving DecidableEq, Repr

/-- The name registry (`struct Dns` in `src/dns.rs`): a `u16` counter `next`
and an insertion-ordered map from hostnames to IP addresses. -/
structure Dns where
  next : Nat
  names : List (String × IpAddr)
deriving DecidableEq, Repr

/-- Model of `Dns::new()`: counter starts at 1, empty map. -/
def Dns.fresh : Dns := ⟨1, []⟩

/-- The simulated address built from a counter value `host`:
`Ipv4Addr::new(192, 168, (host >> 8) as u8, (host & 0xFF) as u8)`. -/
def addrOfHost (host : Nat) : IpAddr :=
  IpAddr.v4 192 168 (host / 256 % 256) (host % 256)

/-- Model of `IndexMap::get` on the registry map: first entry (in insertion order)
whose key equals `h`. -/
def findName (names : List (String × IpAddr)) (h : String) : Option IpAddr :=
  (names.find? (fun e => e.1 == h)).map (·.2)

/-- Model of `<&str as ToIpAddr>::to_ip_addr` (also `Dns::lookup` at a plain
string):
`dns.names.entry(..).or_insert_with(..)`.  If the hostname is present its
address is returned and the registry is unchanged; otherwise the current
counter is consumed (the `u16` increment wraps at 65536), a fresh simulated
address is appended at the end of the map, and that address is returned. -/
def lookupStr (h : String) (dns : Dns) : IpAddr × Dns :=
  match findName dns.names h with
  | some ip => (ip, dns)
  | none =>
    let a := addrOfHost dns.next
    (a, ⟨(dns.next + 1) % 65536, dns.names ++ [(h, a)]⟩)

/-- A sequence of `Dns::lookup` calls on hostname strings, returning the
resolved addresses in order together with the final registry state. -/
def lookupList (hs : List String) (dns : Dns) : List IpAddr × Dns :=
  match hs with
  | [] => ([], dns)
  | h :: rest =>
    let (ip, d) := lookupStr h dns
    let (ips, d') := lookupList rest d
    (ip :: ips, d')

/-- Model of `Dns::reverse`: the first entry (in insertion order) whose address equals
`addr`; `.expect(..)` on no match is modelled by `none`. -/
def Dns.reverse (dns : Dns) (addr : IpAddr) : Option String :=
  (dns.names.find? (fun e => e.2 == addr)).map (·.1)

/-! ## Models of the Rust std string parsers used by `dns.rs` -/

/-- Split a character list at every occurrence of `c` (model of the group
structure used by the std IP parsers; always returns at least one part). -/
def splitOnChar (c : Char) : List Char → List (List Char)
  | [] => [[]]
  | x :: xs =>
    if x = c then [] :: splitOnChar c xs
    else
      match splitOnChar c xs with
      | r :: rs => (x :: r) :: rs
      | [] => [[x]]

/-- Decimal value of a digit-only character list (`none` if empty or if any
character is not an ASCII digit). -/
def decValue (cs : List Char) : Option Nat :=
  if cs = [] then none
  else if cs.all Char.isDigit then
    some (cs.foldl (fun a c => 10 * a + (c.toNat - 48)) 0)
  else none

/-- Model of `<u16 as FromStr>::from_str` (used by `port_str.parse()` in
`str::to_socket_addr`): an optional leading `+`, then decimal digits; the
value must fit in a `u16`. -/
def stripPlus (cs : List Char) : List Char :=
  match cs with
  | [] => []
  | x :: rest => if x = '+' then rest else x :: rest

def parseU16 (s : String) : Option Nat :=
  match decValue (stripPlus s.data) with
  | some v => if v < 65536 then some v else none
  | none => none

/-- Model of the port number inside a socket-address literal (std
`Parser::read_port`): decimal digits only (no sign), `u16` range. -/
def parsePortDigits (cs : List Char) : Option Nat :=
  match decValue cs with
  | some v => if v < 65536 then some v else none
  | none => none

/-- One IPv4 octet: 1–3 decimal digits, no leading zero (except `"0"`),
value at most 255 (std `Ipv4Addr` parsing). -/
def parseOctet (cs : List Char) : Option Nat :=
  match decValue cs with
  | some v =>
    if cs.length > 3 then none
    else if cs.head? = some '0' ∧ cs.length > 1 then none
    else if v ≤ 255 then some v else none
  | none => none

/-- Model of `<Ipv4Addr as FromStr>::from_str` on a character list: exactly
four octets separated by `.`. -/
def parseIpv4Chars (cs : List Char) : Option (Nat × Nat × Nat × Nat) :=
  match (splitOnChar '.' cs).map parseOctet with
  | [some a, some b, some c, some d] => some (a, b, c, d)
  | _ => none

/-- Model of `<Ipv4Addr as FromStr>::from_str`. -/
def parseIpv4 (s : String) : Option IpAddr :=
  (parseIpv4Chars s.data).map (fun q => IpAddr.v4 q.1 q.2.1 q.2.2.1 q.2.2.2)

/-- ASCII hexadecimal digit test. -/
def isHexDigitChar (c : Char) : Bool :=
  c.isDigit || ('a' ≤ c && c ≤ 'f') || ('A' ≤ c && c ≤ 'F')

/-- Value of an ASCII hexadecimal digit. -/
def hexVal (c : Char) : Nat :=
  if c.isDigit then c.toNat - 48
  else if 'a' ≤ c then c.toNat - 87
  else c.toNat - 55

/-- One IPv6 group: 1–4 hexadecimal digits. -/
def parseHexGroup (cs : List Char) : Option Nat :=
  if cs = [] then none
  else if cs.length > 4 then none
  else if cs.all isHexDigitChar then
    some (cs.foldl (fun a c => 16 * a + hexVal c) 0)
  else none

/-- Split at the first `::` (returns the parts before and after it). -/
def findSplit2 : List Char → Option (List Char × List Char)
  | ':' :: ':' :: rest => some ([], rest)
  | x :: xs => (findSplit2 xs).map (fun p => (x :: p.1, p.2))
  | [] => none

/-- A run of `:`-separated IPv6 groups, each 1–4 hex digits; when `allow4`
is set the final group may instead be an embedded dotted-quad IPv4 address
(contributing the last two 16-bit groups), as in std's `read_groups`. -/
def parseGroupList (allow4 : Bool) : List (List Char) → Option (List Nat)
  | [] => some []
  | [last] =>
    match parseHexGroup last with
    | some v => some [v]
    | none =>
      if allow4 then
        match parseIpv4Chars last with
        | some (a, b, c, d) => some [a * 256 + b, c * 256 + d]
        | none => none
      else none
  | g :: rest =>
    match parseHexGroup g with
    | some v => (parseGroupList allow4 rest).map (v :: ·)
    | none => none

/-- Groups on one side of a `::` (an empty side contributes no groups). -/
def parseSide (allow4 : Bool) (cs : List Char) : Option (List Nat) :=
  if cs = [] then some []
  else parseGroupList allow4 (splitOnChar ':' cs)

/-- Model of `<Ipv6Addr as FromStr>::from_str` on a character list: either
exactly eight groups with no `::`, or at most seven groups around a single
`::` (which expands with zero groups); an embedded IPv4 address may only
terminate the address.  Scope identifiers are not accepted here (std rejects
them for a bare `Ipv6Addr`). -/
def parseIpv6Chars (cs : List Char) : Option (List Nat) :=
  match findSplit2 cs with
  | none =>
    match parseGroupList true (splitOnChar ':' cs) with
    | some gs => if gs.length = 8 then some gs else none
    | none => none
  | some (l, r) =>
    if (findSplit2 r).isSome then none
    else
      match parseSide false l, parseSide true r with
      | some gl, some gr =>
        if gl.length + gr.length ≤ 7 then
          some (gl ++ List.replicate (8 - gl.length - gr.length) 0 ++ gr)
        else none
      | _, _ => none

/-- Model of `<Ipv6Addr as FromStr>::from_str`. -/
def parseIpv6 (s : String) : Option IpAddr :=
  (parseIpv6Chars s.data).map IpAddr.v6

/-- Model of `<IpAddr as FromStr>::from_str`: IPv4 first, then IPv6. -/
def parseIpAddr (s : String) : Option IpAddr :=
  match parseIpv4 s with
  | some ip => some ip
  | none => parseIpv6 s

/-- Worker for `str::rsplit_once`: split a reversed character list at the
first occurrence of `c`. -/
def rsplitGo (c : Char) : List Char → List Char → Option (List Char × List Char)
  | [], _ => none
  | x :: rest, acc =>
    if x = c then some (rest.reverse, acc) else rsplitGo c rest (x :: acc)

/-- Model of `str::rsplit_once`. -/
def rsplitOnce (s : String) (c : Char) : Option (String × String) :=
  (rsplitGo c s.data.reverse []).map (fun p => (String.mk p.1, String.mk p.2))

/-- Model of `<SocketAddrV4 as FromStr>::from_str`: an IPv4 literal, `:`,
and a digits-only port.  (Extensionally equal to std's front-to-back parse:
the port never contains `:`, so the separating colon is the last one.) -/
def parseSocketAddrV4 (s : String) : Option SockAddr :=
  match rsplitOnce s ':' with
  | some (h, p) =>
    match parseIpv4 h, parsePortDigits p.data with
    | some ip, some port => some ⟨ip, port⟩
    | _, _ => none
  | none => none

/-- Scope identifier in a bracketed IPv6 socket address (std
`read_scope_id`): decimal digits in `u32` range.  The scope is validated but
not retained (it does not participate in any claim). -/
def validScope (cs : List Char) : Bool :=
  match decValue cs with
  | some v => v < 4294967296
  | none => false

/-- The part of a bracketed IPv6 host between `[` and `]` (`none` if the
text is not of that shape). -/
def bracketInner (cs : List Char) : Option (List Char) :=
  match cs with
  | '[' :: rest => if rest.getLast? = some ']' then some rest.dropLast else none
  | _ => none

/-- Strip an optional `%scope` suffix from a bracketed IPv6 host, validating
the scope identifier. -/
def scopeSplit (inner : List Char) : Option (List Char) :=
  match splitOnChar '%' inner with
  | [ip] => some ip
  | [ip, sc] => if validScope sc then some ip else none
  | _ => none

/-- Model of `<SocketAddrV6 as FromStr>::from_str`:
`[ipv6]`/`[ipv6%scope]` followed by `:` and a digits-only port. -/
def parseSocketAddrV6 (s : String) : Option SockAddr :=
  match rsplitOnce s ':' with
  | some (h, p) =>
    match bracketInner h.data with
    | some inner =>
      match scopeSplit inner with
      | some ipcs =>
        match parseIpv6Chars ipcs, parsePortDigits p.data with
        | some gs, some port => some ⟨IpAddr.v6 gs, port⟩
        | _, _ => none
      | none => none
    | none => none
  | none => none

/-- Model of `<SocketAddr as FromStr>::from_str`: V4 first, then V6. -/
def parseSocketAddr (s : String) : Option SockAddr :=
  match parseSocketAddrV4 s with
  | some sa => some sa
  | none => parseSocketAddrV6 s

/-- Model of `<(&str, u16) as ToSocketAddrs>::to_socket_addr`: if the host parses as
an IP literal use it verbatim; otherwise consult the registry (read-only);
an absent hostname panics (`none`). -/
def strPairToSocketAddr (host : String) (port : Nat) (dns : Dns) : Option SockAddr :=
  match parseIpAddr host with
  | some ip => some ⟨ip, port⟩
  | none =>
    match findName dns.names host with
    | some ip => some ⟨ip, port⟩
    | none => none

/-- Model of `<str as ToSocketAddrs>::to_socket_addr`: try a full socket-address
literal; otherwise split at the last `:` (panic if none), parse the port via
`str::parse::<u16>` (panic on failure), and resolve the host/port pair. -/
def strToSocketAddr (s : String) (dns : Dns) : Option SockAddr :=
  match parseSocketAddr s with
  | some sa => some sa
  | none =>
    match rsplitOnce s ':' with
    | none => none
    | some (host, portStr) =>
      match parseU16 portStr with
      | none => none
      | some port => strPairToSocketAddr host port dns

/-! ## The UDP endpoint operations (`src/net/udp.rs`) and socket-pair
identity (`src/net/mod.rs`) -/

/-- The protocol tag of a routed message (`envelope::Protocol`); the UDP
variant carries the datagram payload bytes. -/
inductive Protocol where
  | udp (payload : List Nat)
deriving DecidableEq, Repr

/-- A message handed to `World::send_message` for routing. -/
structure Message where
  src : SockAddr
  dst : SockAddr
  protocol : Protocol
deriving DecidableEq, Repr

/-- The part of the simulation context (`World`) that `UdpSocket::send_to`
touches: the registry, the current host's primary address, and the messages
handed to the scheduler (in order). -/
structure World where
  dns : Dns
  hostAddr : IpAddr
  messages : List Message
deriving DecidableEq, Repr

/-- Rust `IpAddr::is_unspecified`: `0.0.0.0` for IPv4, all-zero groups
(`::`) for IPv6. -/
def IpAddr.isUnspecified : IpAddr → Bool
  | .v4 a b c d => a == 0 && b == 0 && c == 0 && d == 0
  | .v6 gs => gs.all (· == 0)

/-- Model of `UdpSocket::send_to` with a hostname-text target (the `ToSocketAddrs`
generic instantiated at `str`): resolve the target against the world's
registry (panic = `none`), substitute the owning host's address as source if
the socket was bound to an unspecified address (keeping the bound port),
hand the datagram to `World::send_message`, and return the full payload
length. -/
def sendTo (w : World) (localAddr : SockAddr) (buf : List Nat) (target : String) :
    Option (World × Nat) :=
  match strToSocketAddr target w.dns with
  | none => none
  | some dst =>
    let src : SockAddr :=
      if localAddr.ip.isUnspecified then ⟨w.hostAddr, localAddr.port⟩ else localAddr
    some ({ w with messages := w.messages ++ [⟨src, dst, Protocol.udp buf⟩] }, buf.length)

/-- Model of `BufMut::put` of `src` into the front of `dst` (the caller guarantees
`src.length ≤ dst.length`): overwrites the first `src.length` bytes of
`dst`, leaving the rest untouched. -/
def putBytes : List Nat → List Nat → List Nat
  | [], dst => dst
  | _ :: _, [] => []
  | s :: ss, _ :: ds => s :: putBytes ss ds

/-- Model of `UdpSocket::recv_from` once a `(datagram, origin)` envelope has arrived
on the socket's inbound queue: copy `min (buffer length) (payload length)`
bytes of the payload into the buffer and return the resulting buffer, the
count, and the origin. -/
def recvFrom (datagram : List Nat) (origin : SockAddr) (buf : List Nat) :
    List Nat × Nat × SockAddr :=
  let limit := min buf.length datagram.length
  (putBytes (datagram.take limit) buf, limit, origin)

/-- The socket-pair identity (`net::SocketPair`). -/
structure SocketPair where
  local_ : SockAddr
  remote : SockAddr
deriving DecidableEq, Repr

/-- Model of `SocketPair::new`: `assert_ne!(local, remote)` is modelled by
`none` on equal addresses. -/
def SocketPair.new (l r : SockAddr) : Option SocketPair :=
  if l = r then none else some ⟨l, r⟩

/-! ## Helper lemmas -/

/-- The addresses allocated by `k` consecutive fresh-hostname lookups
starting at counter value `m` (the `u16` counter wraps at 65536). -/
def addrsFrom (m k : Nat) : List IpAddr :=
  (List.range k).map (fun i => addrOfHost ((m + i) % 65536))

theorem addrsFrom_length (m k : Nat) : (addrsFrom m k).length = k := by
  simp [addrsFrom]

theorem addrsFrom_succ (m k : Nat) :
    addrsFrom m (k + 1) = addrOfHost (m % 65536) :: addrsFrom ((m + 1) % 65536) k := by
  unfold addrsFrom
  rw [List.range_succ_eq_map, List.map_cons, List.map_map]
  refine congrArg₂ _ (by rw [Nat.add_zero]) ?_
  refine List.map_congr_left (fun i _ => ?_)
  simp only [Function.comp_apply, Nat.succ_eq_add_one, Nat.mod_add_mod]
  exact congrArg addrOfHost (by omega)

theorem findName_eq_none_iff (l : List (String × IpAddr)) (h : String) :
    findName l h = none ↔ ∀ e ∈ l, e.1 ≠ h := by
  unfold findName
  rw [Option.map_eq_none', List.find?_eq_none]
  constructor
  · intro hall e he
    have := hall e he
    simpa using this
  · intro hall e he
    simpa using hall e he

theorem findName_append (l₁ l₂ : List (String × IpAddr)) (h : String) :
    findName (l₁ ++ l₂) h = (findName l₁ h).or (findName l₂ h) := by
  unfold findName
  rw [List.find?_append]
  cases l₁.find? (fun e => e.1 == h) <;> simp

theorem findName_some_split (l : List (String × IpAddr)) (h : String) (ip : IpAddr)
    (hf : findName l h = some ip) :
    ∃ l₁ l₂, l = l₁ ++ (h, ip) :: l₂ ∧ ∀ e ∈ l₁, e.1 ≠ h := by
  induction l with
  | nil => simp [findName] at hf
  | cons e rest ih =>
    by_cases hkey : e.1 = h
    · have hfe : findName (e :: rest) h = some e.2 := by
        unfold findName
        rw [List.find?_cons_of_pos _ (by simpa using hkey)]
        rfl
      rw [hfe] at hf
      refine ⟨[], rest, ?_, by simp⟩
      obtain ⟨e1, e2⟩ := e
      simp only at hkey
      cases hf
      simp [hkey]
    · have hfe : findName (e :: rest) h = findName rest h := by
        unfold findName
        rw [List.find?_cons_of_neg _ (by simpa using hkey)]
      rw [hfe] at hf
      obtain ⟨l₁, l₂, hsplit, hno⟩ := ih hf
      exact ⟨e :: l₁, l₂, by simp [hsplit], by
        intro e' he'
        rcases List.mem_cons.mp he' with rfl | hmem
        · exact hkey
        · exact hno e' hmem⟩

theorem addrOfHost_inj {c c' : Nat} (hc : c < 65536) (hc' : c' < 65536)
    (h : addrOfHost c = addrOfHost c') : c = c' := by
  unfold addrOfHost at h
  injection h with h1 h2 h3 h4
  omega

/-- Characterization of a sequence of lookups of pairwise-distinct hostnames
none of which is registered yet: each lookup allocates, the counter wraps at
65536, the addresses are `addrsFrom`, and the new entries are appended in
order. -/
theorem lookupList_alloc (hs : List String) : ∀ (σ : Dns),
    (∀ nm ∈ hs, findName σ.names nm = none) → hs.Nodup → σ.next < 65536 →
    lookupList hs σ =
      (addrsFrom σ.next hs.length,
       ⟨(σ.next + hs.length) % 65536, σ.names ++ hs.zip (addrsFrom σ.next hs.length)⟩) := by
  induction hs with
  | nil =>
    intro σ _ _ hlt
    simp [lookupList, addrsFrom, Nat.mod_eq_of_lt hlt]
  | cons nm rest ih =>
    intro σ hfind hnd hlt
    have hnm : findName σ.names nm = none := hfind nm (by simp)
    have hstep : lookupStr nm σ =
        (addrOfHost σ.next, ⟨(σ.next + 1) % 65536, σ.names ++ [(nm, addrOfHost σ.next)]⟩) := by
      simp [lookupStr, hnm]
    have hfind₁ : ∀ nm' ∈ rest,
        findName (σ.names ++ [(nm, addrOfHost σ.next)]) nm' = none := by
      intro nm' hmem
      have h₀ : findName σ.names nm' = none := hfind nm' (by simp [hmem])
      have hne : nm ≠ nm' := by
        rintro rfl
        exact (List.nodup_cons.mp hnd).1 hmem
      rw [findName_append, h₀, Option.none_or, findName_eq_none_iff]
      intro e he
      rcases List.mem_singleton.mp he with rfl
      exact hne
    have hlt₁ : (σ.next + 1) % 65536 < 65536 := Nat.mod_lt _ (by norm_num)
    have hrest := ih ⟨(σ.next + 1) % 65536, σ.names ++ [(nm, addrOfHost σ.next)]⟩
      hfind₁ (List.nodup_cons.mp hnd).2 hlt₁
    have hgoal : lookupList (nm :: rest) σ =
        (addrOfHost σ.next :: addrsFrom ((σ.next + 1) % 65536) rest.length,
         ⟨(((σ.next + 1) % 65536) + rest.length) % 65536,
          (σ.names ++ [(nm, addrOfHost σ.next)]) ++
            rest.zip (addrsFrom ((σ.next + 1) % 65536) rest.length)⟩) := by
      unfold lookupList
      rw [hstep]
      simp only
      rw [hrest]
    rw [hgoal]
    have haddrs : addrsFrom σ.next (rest.length + 1) =
        addrOfHost σ.next :: addrsFrom ((σ.next + 1) % 65536) rest.length := by
      rw [addrsFrom_succ, Nat.mod_eq_of_lt hlt]
    have hnext : (((σ.next + 1) % 65536) + rest.length) % 65536 =
        (σ.next + (rest.length + 1)) % 65536 := by
      rw [Nat.mod_add_mod]
      exact congrArg (· % 65536) (by omega)
    refine Prod.ext ?_ ?_
    · simp only [List.length_cons, haddrs]
    · simp only [List.length_cons, haddrs, hnext, List.zip_cons_cons, List.append_assoc,
        List.cons_append, List.nil_append]

theorem addrsFrom_eq_of_le (m k : Nat) (h : m + k ≤ 65536) :
    addrsFrom m k = (List.range k).map (fun i => addrOfHost (m + i)) := by
  unfold addrsFrom
  refine List.map_congr_left (fun i hi => ?_)
  have : i < k := List.mem_range.mp hi
  rw [Nat.mod_eq_of_lt (by omega)]

theorem addrsFrom_nodup (m k : Nat) (h : m + k ≤ 65536) : (addrsFrom m k).Nodup := by
  rw [addrsFrom_eq_of_le m k h]
  refine List.Nodup.map_on ?_ (List.nodup_range k)
  intro i hi j hj hij
  have hi' : i < k := List.mem_range.mp hi
  have hj' : j < k := List.mem_range.mp hj
  have := addrOfHost_inj (show m + i < 65536 by omega) (show m + j < 65536 by omega) hij
  omega

theorem putBytes_eq (src : List Nat) : ∀ (dst : List Nat), src.length ≤ dst.length →
    putBytes src dst = src ++ dst.drop src.length := by
  induction src with
  | nil => intro dst _; simp [putBytes]
  | cons s ss ih =>
    intro dst hle
    cases dst with
    | nil => simp at hle
    | cons d ds =>
      simp only [putBytes, List.length_cons, List.cons_append, List.drop_succ_cons]
      exact congrArg _ (ih ds (by simpa using hle))

/-! ## Claim C4: idempotent lookup -/

/-- C4: for every hostname `h` and every registry state, looking `h` up
twice in succession returns the same IP address both times, and the second
lookup leaves the registry state unchanged. -/
theorem lookup_idempotent (σ : Dns) (h : String) :
    lookupStr h (lookupStr h σ).2 = ((lookupStr h σ).1, (lookupStr h σ).2) := by
  cases hc : findName σ.names h with
  | some ip =>
    simp [lookupStr, hc]
  | none =>
    have h1 : lookupStr h σ =
        (addrOfHost σ.next, ⟨(σ.next + 1) % 65536, σ.names ++ [(h, addrOfHost σ.next)]⟩) := by
      simp [lookupStr, hc]
    rw [h1]
    have h2 : findName (σ.names ++ [(h, addrOfHost σ.next)]) h = some (addrOfHost σ.next) := by
      rw [findName_append, hc, Option.none_or]
      simp [findName]
    simp [lookupStr, h2]

/-! ## Claim C6: datagram truncation on receive -/

/-- C6: a successful `recv_from` of a payload of length `L` into a buffer of
length `B` copies exactly `min B L` bytes — the length-`min B L` prefix of
the payload — into the front of the buffer (the rest of the buffer is
untouched), and returns that count together with the origin address;
truncation is silent (the operation still succeeds). -/
theorem recv_from_truncates (datagram : List Nat) (origin : SockAddr) (buf : List Nat) :
    recvFrom datagram origin buf =
      (datagram.take (min buf.length datagram.length) ++
         buf.drop (min buf.length datagram.length),
       min buf.length datagram.length, origin) := by
  unfold recvFrom
  simp only
  have hlen : (datagram.take (min buf.length datagram.length)).length =
      min buf.length datagram.length := by
    rw [List.length_take]
    omega
  rw [putBytes_eq _ buf (by rw [hlen]; omega), hlen]

/-! ## Claim C7: send_to reports the full payload length -/

/-- C7: for every payload and every resolvable target address, a successful
`send_to` returns exactly the full payload length — a datagram is never
reported as sent short. -/
theorem send_to_full_length (w : World) (localAddr : SockAddr) (buf : List Nat)
    (target : String) (dst : SockAddr)
    (hres : strToSocketAddr target w.dns = some dst) :
    (sendTo w localAddr buf target).map Prod.snd = some buf.length := by
  simp [sendTo, hres]

/-- Witness for C7 at a concrete input: the registry knows `"foo"`, the
socket is bound to `192.168.0.1:4000`, and a 3-byte payload is sent to
`"foo:5000"`. -/
theorem send_to_full_length_witness :
    (sendTo ⟨(lookupStr "foo" Dns.fresh).2, IpAddr.v4 192 168 0 1, []⟩
        ⟨IpAddr.v4 192 168 0 1, 4000⟩ [1, 2, 3] "foo:5000").map Prod.snd = some 3 :=
  send_to_full_length _ _ _ _ ⟨IpAddr.v4 192 168 0 1, 5000⟩ (by decide)

/-! ## Claim C8: source-address substitution for unspecified binds -/

/-- C8: when the socket's bound local address has an unspecified IP
(`0.0.0.0` or `::`), `send_to` routes the message with the owning host's
actual address as source IP while keeping the bound port; for a socket bound
to a specified IP the bound local address is used unchanged as the source. -/
theorem send_to_source_substitution (w : World) (localAddr : SockAddr) (buf : List Nat)
    (target : String) (dst : SockAddr)
    (hres : strToSocketAddr target w.dns = some dst) :
    sendTo w localAddr buf target =
      some ({ w with messages := w.messages ++
        [⟨if localAddr.ip.isUnspecified then ⟨w.hostAddr, localAddr.port⟩ else localAddr,
          dst, Protocol.udp buf⟩] }, buf.length) := by
  simp [sendTo, hres]

/-- Witness for C8 at a concrete input: a socket bound to `0.0.0.0:4000` on
the host with address `192.168.0.7` sends to a literal target; the routed
message's source is `192.168.0.7:4000`. -/
theorem send_to_source_substitution_witness :
    sendTo ⟨Dns.fresh, IpAddr.v4 192 168 0 7, []⟩ ⟨IpAddr.v4 0 0 0 0, 4000⟩
        [9] "10.0.0.1:80" =
      some (⟨Dns.fresh, IpAddr.v4 192 168 0 7,
        [⟨⟨IpAddr.v4 192 168 0 7, 4000⟩, ⟨IpAddr.v4 10 0 0 1, 80⟩, Protocol.udp [9]⟩]⟩, 1) := by
  have := send_to_source_substitution ⟨Dns.fresh, IpAddr.v4 192 168 0 7, []⟩
    ⟨IpAddr.v4 0 0 0 0, 4000⟩ [9] "10.0.0.1:80" ⟨IpAddr.v4 10 0 0 1, 80⟩ (by decide)
  rw [this]
  rfl

/-! ## Claim C9: socket-pair identity invariant -/

/-- C9: constructing a `SocketPair` succeeds exactly when `local ≠ remote`
(in which case it holds those two addresses), constructing one with
`local = remote` is a fatal assertion failure, and consequently every
existing `SocketPair` produced by the constructor satisfies
`local ≠ remote`. -/
theorem socket_pair_invariant :
    (∀ l r p, SocketPair.new l r = some p →
        p.local_ = l ∧ p.remote = r ∧ p.local_ ≠ p.remote) ∧
    (∀ l r, l ≠ r → SocketPair.new l r = some ⟨l, r⟩) ∧
    (∀ l, SocketPair.new l l = none) := by
  refine ⟨?_, ?_, ?_⟩
  · intro l r p hp
    unfold SocketPair.new at hp
    by_cases hlr : l = r
    · simp [hlr] at hp
    · simp only [if_neg hlr] at hp
      cases hp
      exact ⟨rfl, rfl, hlr⟩
  · intro l r hlr
    simp [SocketPair.new, hlr]
  · intro l
    simp [SocketPair.new]

/-- Witness for C9 at concrete inputs: distinct loopback addresses form a
pair, equal ones abort. -/
theorem socket_pair_invariant_witness :
    (SocketPair.new ⟨IpAddr.v4 127 0 0 1, 1⟩ ⟨IpAddr.v4 127 0 0 1, 2⟩ =
      some ⟨⟨IpAddr.v4 127 0 0 1, 1⟩, ⟨IpAddr.v4 127 0 0 1, 2⟩⟩) ∧
    (SocketPair.new ⟨IpAddr.v4 127 0 0 1, 1⟩ ⟨IpAddr.v4 127 0 0 1, 1⟩ = none) :=
  ⟨socket_pair_invariant.2.1 _ _ (by decide), socket_pair_invariant.2.2 _⟩

theorem string_mk_data (s : String) : String.mk s.data = s := by
  cases s
  rfl

theorem rsplitGo_not_mem (c : Char) :
    ∀ (m r acc : List Char), (∀ x ∈ m, x ≠ c) →
      rsplitGo c (m ++ c :: r) acc = some (r.reverse, m.reverse ++ acc) := by
  intro m
  induction m with
  | nil =>
    intro r acc _
    simp [rsplitGo]
  | cons x xs ih =>
    intro r acc hno
    have hx : x ≠ c := hno x (by simp)
    simp only [List.cons_append, rsplitGo, if_neg hx, List.append_eq]
    rw [ih r (x :: acc) (fun y hy => hno y (by simp [hy]))]
    simp

theorem rsplitOnce_append (h t : String) (c : Char) (hno : ∀ x ∈ t.data, x ≠ c) :
    rsplitOnce (h ++ String.mk [c] ++ t) c = some (h, t) := by
  unfold rsplitOnce
  have hdata : (h ++ String.mk [c] ++ t).data = h.data ++ c :: t.data := by
    simp [String.data_append]
  rw [hdata]
  have hrev : (h.data ++ c :: t.data).reverse = t.data.reverse ++ c :: h.data.reverse := by
    simp [List.reverse_append]
  rw [hrev, rsplitGo_not_mem c t.data.reverse h.data.reverse []
    (fun x hx => hno x (List.mem_reverse.mp hx))]
  simp [string_mk_data]

theorem parsePortDigits_none_of_parseU16_none (t : String) (hp : parseU16 t = none) :
    parsePortDigits t.data = none := by
  cases hd : t.data with
  | nil => simp [parsePortDigits, decValue]
  | cons x rest =>
    by_cases hx : x = '+'
    · subst hx
      have hdv : decValue ('+' :: rest) = none := by
        unfold decValue
        rw [if_neg (by simp)]
        have hall : ('+' :: rest).all Char.isDigit = false := by
          rw [List.all_cons]
          have hplus : Char.isDigit '+' = false := by decide
          rw [hplus, Bool.false_and]
        rw [hall]
        rfl
      simp [parsePortDigits, hdv]
    · have hstrip : stripPlus (x :: rest) = x :: rest := by
        show (if x = '+' then rest else x :: rest) = x :: rest
        rw [if_neg hx]
      unfold parseU16 at hp
      rw [hd, hstrip] at hp
      unfold parsePortDigits
      exact hp

theorem parseSocketAddrV4_port_none (s host portStr : String)
    (hr : rsplitOnce s ':' = some (host, portStr))
    (hpd : parsePortDigits portStr.data = none) :
    parseSocketAddrV4 s = none := by
  unfold parseSocketAddrV4
  rw [hr]
  cases hip : parseIpv4 host <;> simp [hpd]

theorem parseSocketAddrV6_port_none (s host portStr : String)
    (hr : rsplitOnce s ':' = some (host, portStr))
    (hpd : parsePortDigits portStr.data = none) :
    parseSocketAddrV6 s = none := by
  cases hb : bracketInner host.data with
  | none => simp [parseSocketAddrV6, hr, hb]
  | some inner =>
    cases hs : scopeSplit inner with
    | none => simp [parseSocketAddrV6, hr, hb, hs]
    | some ipcs =>
      cases hv6 : parseIpv6Chars ipcs <;>
        simp [parseSocketAddrV6, hr, hb, hs, hv6, hpd]

theorem parseSocketAddr_rsplit_none (s : String) (hr : rsplitOnce s ':' = none) :
    parseSocketAddr s = none := by
  simp [parseSocketAddr, parseSocketAddrV4, parseSocketAddrV6, hr]

/-! ## Claim C3: fatal resolution faults -/

/-- C3: resolving a socket-address text is a fatal fault (panic, modelled as
`none`, so no truncated or default socket address is ever returned) in each of
the following cases: (a) the text is not itself a literal socket address and
its host portion (the part before the last `:`) is neither a literal IP nor
a hostname present in the registry; (b) the port portion after the last `:`
does not parse as a `u16`; (c) the text contains no `:` separator at all.
(In case (a) the "not a literal socket address" hypothesis is the formal
reading of "the host portion is not a literal IP" for bracketed IPv6 texts,
whose host portion carries the brackets and scope.) -/
theorem resolution_fatal_faults (σ : Dns) (s host portStr : String) :
    (parseSocketAddr s = none → rsplitOnce s ':' = some (host, portStr) →
      parseIpAddr host = none → findName σ.names host = none →
      strToSocketAddr s σ = none) ∧
    (rsplitOnce s ':' = some (host, portStr) → parseU16 portStr = none →
      strToSocketAddr s σ = none) ∧
    (rsplitOnce s ':' = none → strToSocketAddr s σ = none) := by
  refine ⟨?_, ?_, ?_⟩
  · intro hsock hr hip hfn
    simp only [strToSocketAddr, hsock, hr]
    cases hp : parseU16 portStr with
    | none => rfl
    | some port => simp [strPairToSocketAddr, hip, hfn]
  · intro hr hp
    have hpd : parsePortDigits portStr.data = none :=
      parsePortDigits_none_of_parseU16_none portStr hp
    have hsock : parseSocketAddr s = none := by
      unfold parseSocketAddr
      rw [parseSocketAddrV4_port_none s host portStr hr hpd,
        parseSocketAddrV6_port_none s host portStr hr hpd]
    simp only [strToSocketAddr, hsock, hr, hp]
  · intro hr
    simp only [strToSocketAddr, parseSocketAddr_rsplit_none s hr, hr]

/-- Witness for C3 at concrete inputs: an unknown hostname with a valid
port, a text with an unparsable port, and a text without a colon all abort
resolution against the fresh registry. -/
theorem resolution_fatal_faults_witness :
    strToSocketAddr "xyz:80" Dns.fresh = none ∧
    strToSocketAddr "foo:bar" Dns.fresh = none ∧
    strToSocketAddr "nocolon" Dns.fresh = none :=
  ⟨(resolution_fatal_faults Dns.fresh "xyz:80" "xyz" "80").1
      (by decide) (by decide) (by decide) (by decide),
   (resolution_fatal_faults Dns.fresh "foo:bar" "foo" "bar").2.1
      (by decide) (by decide),
   (resolution_fatal_faults Dns.fresh "nocolon" "" "").2.2 (by decide)⟩

/-! ## Claim C2: host:port text versus separate host resolution -/

/-- C2 counterexample: for the hostname `"foo"` (no IP literal) and port
5000 on a fresh registry, resolving the text `"foo:5000"` is a fatal fault
(`none`), whereas separately resolving `"foo"` through the registry
allocates `192.168.0.1`; the two resolution routes therefore do NOT agree
when the hostname is not yet present in the registry — text resolution
reads the registry immutably and panics instead of allocating. -/
theorem host_port_equiv_counterexample :
    strToSocketAddr "foo:5000" Dns.fresh = none ∧
    (lookupStr "foo" Dns.fresh).1 = IpAddr.v4 192 168 0 1 ∧
    strToSocketAddr "foo:5000" Dns.fresh ≠
      some ⟨(lookupStr "foo" Dns.fresh).1, 5000⟩ := by
  refine ⟨by decide, by decide, ?_⟩
  intro hcontra
  have h1 : strToSocketAddr "foo:5000" Dns.fresh = none := by decide
  rw [h1] at hcontra
  cases hcontra

/-- C2 as amended: when the hostname `h` is already present in the registry
(and `h` is not an IP literal and `"h:p"` is not itself a literal
socket-address text), resolving the text `"h:p"` yields exactly the
registry's address for `h` combined with the parsed port — the same result
as separately resolving `h` (which then does not mutate the registry) and
combining it with the port.  When `h` is absent, text resolution is instead
a fatal fault (claim C3) while separate resolution would allocate. -/
theorem host_port_equiv (σ : Dns) (h t : String) (p : Nat) (ip : IpAddr)
    (hip : parseIpAddr h = none)
    (hcol : ∀ x ∈ t.data, x ≠ ':')
    (hport : parseU16 t = some p)
    (hsock : parseSocketAddr (h ++ ":" ++ t) = none)
    (hreg : findName σ.names h = some ip) :
    strToSocketAddr (h ++ ":" ++ t) σ = some ⟨ip, p⟩ ∧
    lookupStr h σ = (ip, σ) := by
  constructor
  · have hr : rsplitOnce (h ++ ":" ++ t) ':' = some (h, t) := by
      have : (":" : String) = String.mk [':'] := by decide
      rw [this]
      exact rsplitOnce_append h t ':' hcol
    simp only [strToSocketAddr, hsock, hr, hport, strPairToSocketAddr, hip, hreg]
  · simp [lookupStr, hreg]

/-- Witness for C2 (amended) at a concrete input: with `"foo"` registered at
`192.168.0.1`, both resolution routes of `"foo:5000"` agree. -/
theorem host_port_equiv_witness :
    strToSocketAddr ("foo" ++ ":" ++ "5000") (lookupStr "foo" Dns.fresh).2 =
      some ⟨IpAddr.v4 192 168 0 1, 5000⟩ ∧
    lookupStr "foo" (lookupStr "foo" Dns.fresh).2 =
      (IpAddr.v4 192 168 0 1, (lookupStr "foo" Dns.fresh).2) :=
  host_port_equiv (lookupStr "foo" Dns.fresh).2 "foo" "5000" 5000
    (IpAddr.v4 192 168 0 1) (by decide) (by decide) (by decide) (by decide) (by decide)

/-! ## Claim C10: plain lookup ignores the literal interpretation -/

/-- C10 counterexample: the string `"192.168.0.1"` parses as an IP literal,
yet looking it up on a fresh registry returns `192.168.0.1` — exactly the
literal IP — because the freshly allocated simulated address happens to
coincide with it.  The claim's clause "does not return the literal IP" is
therefore not true of every literal string, even though the lookup never
consults the literal interpretation. -/
theorem lookup_ignores_literal_counterexample :
    parseIpAddr "192.168.0.1" = some (IpAddr.v4 192 168 0 1) ∧
    (lookupStr "192.168.0.1" Dns.fresh).1 = IpAddr.v4 192 168 0 1 := by
  decide

/-- C10 as amended: for every string `s` that parses as an IP literal and is
not yet registered, plain lookup ignores the literal interpretation
entirely: it registers `s` as a fresh hostname (mutating the registry) and
returns the next counter's simulated address — which may only coincidentally
equal the literal (e.g. for `"192.168.0.1"` on a fresh registry); for the
spec's example `"127.0.0.1"`, the returned address `192.168.0.1` indeed
differs from the literal.  The use-IP-literal-verbatim check exists only in
socket-address resolution, not in plain string lookup. -/
theorem lookup_ignores_literal (σ : Dns) (s : String) (ip : IpAddr)
    (_hlit : parseIpAddr s = some ip)
    (hfn : findName σ.names s = none) :
    lookupStr s σ =
      (addrOfHost σ.next,
       ⟨(σ.next + 1) % 65536, σ.names ++ [(s, addrOfHost σ.next)]⟩) ∧
    (lookupStr s σ).2.names ≠ σ.names ∧
    (lookupStr "127.0.0.1" Dns.fresh).1 ≠ IpAddr.v4 127 0 0 1 := by
  have hstep : lookupStr s σ =
      (addrOfHost σ.next,
       ⟨(σ.next + 1) % 65536, σ.names ++ [(s, addrOfHost σ.next)]⟩) := by
    simp [lookupStr, hfn]
  refine ⟨hstep, ?_, by decide⟩
  rw [hstep]
  intro hcontra
  have hlen := congrArg List.length hcontra
  simp at hlen

/-- Witness for C10 (amended) at a concrete input: looking up the literal
string `"10.1.2.3"` on a fresh registry allocates `192.168.0.1` and
registers the string as a hostname. -/
theorem lookup_ignores_literal_witness :
    lookupStr "10.1.2.3" Dns.fresh =
      (addrOfHost 1, ⟨2 % 65536, [] ++ [("10.1.2.3", addrOfHost 1)]⟩) ∧
    (lookupStr "10.1.2.3" Dns.fresh).2.names ≠ Dns.fresh.names ∧
    (lookupStr "127.0.0.1" Dns.fresh).1 ≠ IpAddr.v4 127 0 0 1 :=
  lookup_ignores_literal Dns.fresh "10.1.2.3" (IpAddr.v4 10 1 2 3)
    (by decide) (by decide)

/-! ## Claim C1: distinct address allocation and the u16 counter wrap -/

/-- Hostname family used for the wrap-around counterexamples: the string of
`i` repetitions of `a` (these are pairwise distinct). -/
def nameRep (i : Nat) : String := String.mk (List.replicate i 'a')

theorem nameRep_injective : Function.Injective nameRep := by
  intro i j hij
  have hdata : List.replicate i 'a' = List.replicate j 'a' := congrArg String.data hij
  have hlen := congrArg List.length hdata
  simpa using hlen

/-- A list of 65537 pairwise-distinct hostnames — one more than the number
of distinct values of the registry's `u16` counter. -/
def overflowNames : List String := (List.range 65537).map nameRep

/-- C1 counterexample: resolving the 65537 pairwise-distinct hostnames of
`overflowNames` against a fresh registry does NOT yield pairwise-distinct
addresses: the `u16` counter wraps after 65536 allocations, so the first and
the 65537th hostname both receive `192.168.0.1`. -/
theorem allocation_distinct_counterexample :
    overflowNames.Nodup ∧ ¬ (lookupList overflowNames Dns.fresh).1.Nodup := by
  have hnd : overflowNames.Nodup :=
    (List.nodup_range 65537).map nameRep_injective
  refine ⟨hnd, ?_⟩
  have hfind : ∀ nm ∈ overflowNames, findName (Dns.fresh).names nm = none := by
    intro nm _
    simp [Dns.fresh, findName]
  have halloc := lookupList_alloc overflowNames Dns.fresh hfind hnd (by norm_num [Dns.fresh])
  have hlen : overflowNames.length = 65537 := by simp [overflowNames]
  have hfn : Dns.fresh.next = 1 := rfl
  have h1 : (lookupList overflowNames Dns.fresh).1 = addrsFrom 1 65537 := by
    rw [halloc, hlen, hfn]
  intro hnodup
  rw [h1] at hnodup
  have hlen2 : (addrsFrom 1 65537).length = 65537 := addrsFrom_length 1 65537
  have hne := (List.pairwise_iff_getElem.mp hnodup) 0 65536
    (by rw [hlen2]; norm_num) (by rw [hlen2]; norm_num) (by norm_num)
  refine hne ?_
  simp only [addrsFrom, List.getElem_map, List.getElem_range]

/-- C1 as amended: for every sequence of at most 65535 pairwise-distinct
hostnames resolved against a fresh registry, the resolved addresses are
exactly `addrOfHost 1, addrOfHost 2, ...` — pairwise-distinct IPv4
addresses of the form `192.168.hi.lo` where `hi`/`lo` are the high/low
bytes of the counter values `1, 2, ...` — the address of counter 0
(`192.168.0.0`) is never issued, and the first address allocated is
`192.168.0.1`.  (The bound 65535 is forced by the wrap-around of the `u16`
counter exhibited in the counterexample.) -/
theorem allocation_distinct (names : List String) (hnd : names.Nodup)
    (hlen : names.length ≤ 65535) :
    (lookupList names Dns.fresh).1 =
      (List.range names.length).map (fun i => addrOfHost (1 + i)) ∧
    (lookupList names Dns.fresh).1.Nodup ∧
    IpAddr.v4 192 168 0 0 ∉ (lookupList names Dns.fresh).1 ∧
    (0 < names.length →
      (lookupList names Dns.fresh).1.head? = some (IpAddr.v4 192 168 0 1)) := by
  have hfind : ∀ nm ∈ names, findName (Dns.fresh).names nm = none := by
    intro nm _
    simp [Dns.fresh, findName]
  have halloc := lookupList_alloc names Dns.fresh hfind hnd (by norm_num [Dns.fresh])
  have hfn : Dns.fresh.next = 1 := rfl
  have h1 : (lookupList names Dns.fresh).1 = addrsFrom 1 names.length := by
    rw [halloc, hfn]
  have h2 : (lookupList names Dns.fresh).1 =
      (List.range names.length).map (fun i => addrOfHost (1 + i)) := by
    rw [h1, addrsFrom_eq_of_le 1 names.length (by omega)]
  refine ⟨h2, ?_, ?_, ?_⟩
  · rw [h1]
    exact addrsFrom_nodup 1 names.length (by omega)
  · rw [h2]
    intro hmem
    obtain ⟨i, hi, hia⟩ := List.mem_map.mp hmem
    have hi' : i < names.length := List.mem_range.mp hi
    have : 1 + i = 0 :=
      addrOfHost_inj (by omega) (by norm_num) (hia.trans (by norm_num [addrOfHost]))
    omega
  · intro hpos
    rw [h2]
    obtain ⟨k, hk⟩ : ∃ k, names.length = k + 1 :=
      ⟨names.length - 1, by omega⟩
    rw [hk, List.range_succ_eq_map, List.map_cons]
    rfl

/-- Witness for C1 (amended) at a concrete input: two distinct hostnames on
a fresh registry receive `192.168.0.1` and `192.168.0.2`. -/
theorem allocation_distinct_witness :
    (lookupList ["alpha", "beta"] Dns.fresh).1 =
      (List.range (["alpha", "beta"] : List String).length).map
        (fun i => addrOfHost (1 + i)) ∧
    (lookupList ["alpha", "beta"] Dns.fresh).1.Nodup ∧
    IpAddr.v4 192 168 0 0 ∉ (lookupList ["alpha", "beta"] Dns.fresh).1 ∧
    (0 < (["alpha", "beta"] : List String).length →
      (lookupList ["alpha", "beta"] Dns.fresh).1.head? =
        some (IpAddr.v4 192 168 0 1)) :=
  allocation_distinct ["alpha", "beta"] (by decide) (by decide)

/-! ## Claim C5: reverse lookup round trip -/

theorem reverse_first_match (σ : Dns) (l₁ l₂ : List (String × IpAddr))
    (nm : String) (a : IpAddr)
    (hn : σ.names = l₁ ++ (nm, a) :: l₂) (hne : ∀ e ∈ l₁, e.2 ≠ a) :
    Dns.reverse σ a = some nm := by
  unfold Dns.reverse
  rw [hn, List.find?_append]
  have h1 : l₁.find? (fun e => e.2 == a) = none :=
    List.find?_eq_none.mpr (fun e he => by simpa using hne e he)
  rw [h1, Option.none_or, List.find?_cons_of_pos _ (by simp)]
  rfl

theorem reverse_no_match (σ : Dns) (a : IpAddr)
    (hne : ∀ e ∈ σ.names, e.2 ≠ a) : Dns.reverse σ a = none := by
  unfold Dns.reverse
  rw [List.find?_eq_none.mpr (fun e he => by simpa using hne e he)]
  rfl

/-- A list of 65536 pairwise-distinct hostnames: enough lookups to wrap the
registry's `u16` counter back to 1. -/
def wrapNames : List String := (List.range 65536).map nameRep

theorem range_map_succ {α : Type} (k : Nat) (f : Nat → α) :
    (List.range (k + 1)).map f = f 0 :: (List.range k).map (fun i => f (i + 1)) := by
  rw [List.range_succ_eq_map, List.map_cons, List.map_map]
  rfl

/-- Evaluation of a lookup that allocates (the hostname is absent). -/
theorem lookupStr_alloc_eq (h : String) (σ : Dns) (hf : findName σ.names h = none) :
    lookupStr h σ =
      (addrOfHost σ.next,
       ⟨(σ.next + 1) % 65536, σ.names ++ [(h, addrOfHost σ.next)]⟩) := by
  simp [lookupStr, hf]

theorem ip_dns_fst (a : IpAddr) (d : Dns) : ((a, d) : IpAddr × Dns).1 = a := rfl

theorem ip_dns_snd (a : IpAddr) (d : Dns) : ((a, d) : IpAddr × Dns).2 = d := rfl

theorem addrs_dns_snd (x : List IpAddr) (d : Dns) :
    ((x, d) : List IpAddr × Dns).2 = d := rfl

theorem dns_mk_next (n : Nat) (l : List (String × IpAddr)) : (Dns.mk n l).next = n := rfl

theorem dns_mk_names (n : Nat) (l : List (String × IpAddr)) : (Dns.mk n l).names = l := rfl

/-- C5 counterexample: after 65536 lookups of distinct hostnames the counter
has wrapped back to 1, so looking up a 65537th hostname allocates
`192.168.0.1` — the address already held by the first hostname — and
reverse-resolving the address returned by that lookup yields the FIRST
registered hostname (`nameRep 0`), not the hostname that was looked up.
The round trip `reverse (lookup h) = h` therefore fails. -/
theorem reverse_roundtrip_counterexample :
    Dns.reverse (lookupStr (nameRep 65536) (lookupList wrapNames Dns.fresh).2).2
        (lookupStr (nameRep 65536) (lookupList wrapNames Dns.fresh).2).1 =
      some (nameRep 0) ∧
    nameRep 0 ≠ nameRep 65536 := by
  have hnd : wrapNames.Nodup := (List.nodup_range 65536).map nameRep_injective
  have hfind : ∀ nm ∈ wrapNames, findName (Dns.fresh).names nm = none := by
    intro nm _
    simp [Dns.fresh, findName]
  have halloc := lookupList_alloc wrapNames Dns.fresh hfind hnd (by norm_num [Dns.fresh])
  have hlen : wrapNames.length = 65536 := by simp [wrapNames]
  have hfn : Dns.fresh.next = 1 := rfl
  have hfnm : Dns.fresh.names = ([] : List (String × IpAddr)) := rfl
  rewrite [hlen, hfn, hfnm, List.nil_append] at halloc
  -- halloc : lookupList wrapNames Dns.fresh =
  --   (addrsFrom 1 65536, ⟨(1 + 65536) % 65536, wrapNames.zip (addrsFrom 1 65536)⟩)
  have hnames2 : (lookupList wrapNames Dns.fresh).2.names =
      wrapNames.zip (addrsFrom 1 65536) := by
    rewrite [halloc, addrs_dns_snd, dns_mk_names]
    exact Eq.refl _
  have hnext2 : (lookupList wrapNames Dns.fresh).2.next = 1 := by
    rewrite [halloc, addrs_dns_snd, dns_mk_next]
    norm_num
  have hwn2 : wrapNames = (List.range 65536).map nameRep := by
    delta wrapNames
    rfl
  have haf2 : addrsFrom 1 65536 =
      (List.range 65536).map (fun i => addrOfHost ((1 + i) % 65536)) := by
    delta addrsFrom
    rfl
  have hfind2 : findName (lookupList wrapNames Dns.fresh).2.names (nameRep 65536) =
      none := by
    rewrite [hnames2, hwn2, haf2, List.zip_map', findName_eq_none_iff]
    intro e he
    obtain ⟨i, hi, rfl⟩ := List.mem_map.mp he
    intro hcontra
    have hinj := nameRep_injective hcontra
    have hi2 : i < 65536 := List.mem_range.mp hi
    omega
  have hstep := lookupStr_alloc_eq (nameRep 65536) (lookupList wrapNames Dns.fresh).2 hfind2
  rewrite [hnames2, hnext2] at hstep
  -- hstep : lookupStr (nameRep 65536) (lookupList wrapNames Dns.fresh).2 =
  --   (addrOfHost 1, ⟨(1 + 1) % 65536,
  --      wrapNames.zip (addrsFrom 1 65536) ++ [(nameRep 65536, addrOfHost 1)]⟩)
  have hshape : wrapNames.zip (addrsFrom 1 65536) ++ [(nameRep 65536, addrOfHost 1)] =
      [] ++ (nameRep 0, addrOfHost 1) ::
        ((List.range 65535).map
            (fun i => (nameRep (i + 1), addrOfHost ((1 + (i + 1)) % 65536))) ++
          [(nameRep 65536, addrOfHost 1)]) := by
    rewrite [hwn2, haf2, List.zip_map',
      range_map_succ 65535 (fun a => (nameRep a, addrOfHost ((1 + a) % 65536))),
      List.cons_append, List.nil_append]
    rfl
  constructor
  · rewrite [hstep, ip_dns_fst, ip_dns_snd]
    refine reverse_first_match _ []
      ((List.range 65535).map
          (fun i => (nameRep (i + 1), addrOfHost ((1 + (i + 1)) % 65536))) ++
        [(nameRep 65536, addrOfHost 1)])
      (nameRep 0) (addrOfHost 1) ?_ (by simp)
    rewrite [dns_mk_names]
    exact hshape
  · intro hcontra
    have := nameRep_injective hcontra
    omega

/-- C5 as amended: while fewer than 65535 hostnames are registered (the
bound forced by the `u16` counter wrap of the counterexample), the round
trip holds: for every registry reachable by distinct-hostname lookups from
fresh and every hostname `h`, reverse-resolving the address returned by
`lookup h` (in the post-lookup registry) yields `h` itself.  Moreover
reverse returns the first-registered hostname (in insertion order) whose
mapped address equals the given IP, and reverse on an address never
allocated by the registry is a fatal fault (`none`). -/
theorem reverse_roundtrip (names : List String) (h : String) (hnd : names.Nodup)
    (hlen : names.length < 65535) :
    Dns.reverse (lookupStr h (lookupList names Dns.fresh).2).2
        (lookupStr h (lookupList names Dns.fresh).2).1 = some h ∧
    (∀ (σ : Dns) (l₁ l₂ : List (String × IpAddr)) (nm : String) (a : IpAddr),
        σ.names = l₁ ++ (nm, a) :: l₂ → (∀ e ∈ l₁, e.2 ≠ a) →
        Dns.reverse σ a = some nm) ∧
    (∀ (σ : Dns) (a : IpAddr), (∀ e ∈ σ.names, e.2 ≠ a) → Dns.reverse σ a = none) := by
  refine ⟨?_, reverse_first_match, reverse_no_match⟩
  have hfind : ∀ nm ∈ names, findName Dns.fresh.names nm = none := by
    intro nm _
    simp [Dns.fresh, findName]
  have halloc := lookupList_alloc names Dns.fresh hfind hnd (by norm_num [Dns.fresh])
  have hfn : Dns.fresh.next = 1 := rfl
  have hfnm : Dns.fresh.names = ([] : List (String × IpAddr)) := rfl
  rewrite [hfn, hfnm, List.nil_append] at halloc
  have hnames2 : (lookupList names Dns.fresh).2.names =
      names.zip (addrsFrom 1 names.length) := by
    rewrite [halloc, addrs_dns_snd, dns_mk_names]
    exact Eq.refl _
  have hnext2 : (lookupList names Dns.fresh).2.next = 1 + names.length := by
    rewrite [halloc, addrs_dns_snd, dns_mk_next]
    exact Nat.mod_eq_of_lt (by omega)
  have hvals : (names.zip (addrsFrom 1 names.length)).map Prod.snd =
      addrsFrom 1 names.length :=
    List.map_snd_zip _ _ (by rw [addrsFrom_length])
  have hvnodup : (((lookupList names Dns.fresh).2.names).map Prod.snd).Nodup := by
    rw [hnames2, hvals]
    exact addrsFrom_nodup 1 names.length (by omega)
  cases hc : findName (lookupList names Dns.fresh).2.names h with
  | some ip =>
    have hstep : lookupStr h (lookupList names Dns.fresh).2 =
        (ip, (lookupList names Dns.fresh).2) := by
      simp [lookupStr, hc]
    rewrite [hstep, ip_dns_fst, ip_dns_snd]
    obtain ⟨l₁, l₂, hsplit, _⟩ := findName_some_split _ _ _ hc
    rewrite [hsplit] at hvnodup
    rw [List.map_append, List.map_cons] at hvnodup
    have hmid := (List.nodup_cons.mp (List.nodup_middle.mp hvnodup)).1
    refine reverse_first_match _ l₁ l₂ h ip hsplit ?_
    intro e he hcontra
    exact hmid (List.mem_append.mpr (Or.inl (List.mem_map.mpr ⟨e, he, hcontra⟩)))
  | none =>
    have hstep := lookupStr_alloc_eq h (lookupList names Dns.fresh).2 hc
    rewrite [hnames2, hnext2] at hstep
    rewrite [hstep, ip_dns_fst, ip_dns_snd]
    refine reverse_first_match _ (names.zip (addrsFrom 1 names.length)) [] h
      (addrOfHost (1 + names.length)) ?_ ?_
    · rewrite [dns_mk_names]
      exact Eq.refl _
    · intro e he hcontra
      have hmem : e.2 ∈ (names.zip (addrsFrom 1 names.length)).map Prod.snd :=
        List.mem_map_of_mem _ he
      rewrite [hvals] at hmem
      simp only [addrsFrom] at hmem
      obtain ⟨i, hi, hie⟩ := List.mem_map.mp hmem
      have hi2 : i < names.length := List.mem_range.mp hi
      have hie2 : addrOfHost ((1 + i) % 65536) = e.2 := hie
      rewrite [hcontra] at hie2
      have hlt : 1 + i < 65536 := by omega
      rewrite [Nat.mod_eq_of_lt hlt] at hie2
      have := addrOfHost_inj (by omega) (by omega) hie2
      omega

/-- Witness for C5 (amended) at concrete inputs: with `"alpha"` registered,
looking up the new hostname `"beta"` and reverse-resolving the returned
address yields `"beta"`; reverse returns the first matching hostname, and
reverse of an unallocated address aborts. -/
theorem reverse_roundtrip_witness :
    Dns.reverse (lookupStr "beta" (lookupList ["alpha"] Dns.fresh).2).2
        (lookupStr "beta" (lookupList ["alpha"] Dns.fresh).2).1 = some "beta" ∧
    Dns.reverse ⟨5, [("x", IpAddr.v4 1 2 3 4)]⟩ (IpAddr.v4 1 2 3 4) = some "x" ∧
    Dns.reverse ⟨5, [("x", IpAddr.v4 1 2 3 4)]⟩ (IpAddr.v4 9 9 9 9) = none :=
  ⟨(reverse_roundtrip ["alpha"] "beta" (by decide) (by decide)).1,
   (reverse_roundtrip ["alpha"] "beta" (by decide) (by decide)).2.1
      ⟨5, [("x", IpAddr.v4 1 2 3 4)]⟩ [] [] "x" (IpAddr.v4 1 2 3 4) rfl (by simp),
   (reverse_roundtrip ["alpha"] "beta" (by decide) (by decide)).2.2
      ⟨5, [("x", IpAddr.v4 1 2 3 4)]⟩ (IpAddr.v4 9 9 9 9) (by decide)⟩
